import Mathlib

/-!
Verification of the finapp ledger component (`MontlyExp`).

The development shallowly embeds the component's data flow:
raw ledger rows coming out of a store, the balance-annotating
normalization performed inside `fetchData`, the submit handler
(validation, balance computation, local persist / remote post),
the delete handler, the CSV serialization of `downloadExcel`,
and the `persistLocal` / `loadLocal` localStorage helpers with a
JSON encoder/decoder for the persisted row arrays.

JavaScript numbers are modelled as integers (`Int`): every balance
computation in the component is a sum/difference of coerced amounts,
so the algebraic structure is faithfully represented; `NaN` arising
from `Number(·)` on a non-numeric string is modelled explicitly as a
failed coercion (`Option`/`nan`), and the handlers are analysed on
inputs whose amount coercion succeeds.
-/

namespace FinApp

/-- JS `String.prototype.toUpperCase`, character-wise (`(r.type || "").toUpperCase()`;
for a `String`-typed field `|| ""` is the identity). -/
def jsUpper (s : String) : String := ⟨s.data.map Char.toUpper⟩

/-- A raw `amount` field as it arrives from a store (a JSON value), classified
by what JS `Number(·)` coercion yields on it: `num n` stands for any value
coercing to the number `n`, `nan` for any value whose coercion yields `NaN`. -/
inductive JsAmount where
  | num (n : Int)
  | nan
deriving DecidableEq

/-- `Number(x) || 0`: the coerced amount, with `0` substituted for `NaN`
(and `0 || 0 = 0`, so the coercion is the identity on numbers). -/
def JsAmount.coerce0 : JsAmount → Int
  | .num n => n
  | .nan => 0

/-- A raw row as read from the remote sheet or the local store (source type
`Row` before normalization; a missing `type` is represented by `""`). -/
structure RawRow where
  date : String
  name : String
  description : String
  type : String
  amount : JsAmount
deriving DecidableEq

/-- A normalized, balance-annotated row (source type `Row` after the
`fetchData` map: `amount` replaced by its coerced number, `balance` set). -/
structure NRow where
  date : String
  name : String
  description : String
  type : String
  amount : Int
  balance : Int
deriving DecidableEq

/-- The balance update of one step of the `fetchData` map:
`if (type === "IN") bal += amt; else if (type === "OUT") bal -= amt;`
where `type` is the uppercased row type and `amt` the coerced amount. -/
def nextBal (b : Int) (r : RawRow) : Int :=
  if jsUpper r.type = "IN" then b + r.amount.coerce0
  else if jsUpper r.type = "OUT" then b - r.amount.coerce0
  else b

/-- The map inside `fetchData` (identical in its three call sites: no-url,
remote-ok and remote-fallback paths), with the running `bal` made explicit:
`data.map(r => { const amt = Number(r.amount) || 0; ... return { ...r, amount: amt, balance: bal } })`. -/
def normalizeFrom (b : Int) : List RawRow → List NRow
  | [] => []
  | r :: rs =>
    ⟨r.date, r.name, r.description, r.type, r.amount.coerce0, nextBal b r⟩
      :: normalizeFrom (nextBal b r) rs

/-- The full normalization: the `fetchData` map with `let bal = 0` as start. -/
def normalize : List RawRow → List NRow := normalizeFrom 0

/-- Signed amount of a raw row, as the spec defines it:
`+amount` for `IN`, `-amount` for `OUT`, `0` otherwise (type uppercased,
amount coerced). -/
def signedAmount (r : RawRow) : Int :=
  if jsUpper r.type = "IN" then r.amount.coerce0
  else if jsUpper r.type = "OUT" then -r.amount.coerce0
  else 0

/-- The coerced amount of a row if it is classified `IN`, else `0`. -/
def inPart (r : RawRow) : Int := if jsUpper r.type = "IN" then r.amount.coerce0 else 0

/-- The coerced amount of a row if it is classified `OUT`, else `0`. -/
def outPart (r : RawRow) : Int := if jsUpper r.type = "OUT" then r.amount.coerce0 else 0

/-- Sum of the coerced amounts of all rows classified `IN`. -/
def sumIn (l : List RawRow) : Int := (l.map inPart).sum

/-- Sum of the coerced amounts of all rows classified `OUT`. -/
def sumOut (l : List RawRow) : Int := (l.map outPart).sum

/-- Default raw row (used only as the `getD` fallback in statements). -/
def dummyRaw : RawRow := ⟨"", "", "", "", .nan⟩

/-- Default annotated row (used only as the `getD` fallback in statements). -/
def dummyN : NRow := ⟨"", "", "", "", 0, 0⟩

/-- The balance of the last normalized row, `0` for an empty list. -/
def finalBalance (xs : List NRow) : Int := ((xs.getLast?).map NRow.balance).getD 0

theorem nextBal_eq (b : Int) (r : RawRow) : nextBal b r = b + signedAmount r := by
  unfold nextBal signedAmount
  split
  · rfl
  · split <;> omega

theorem signedAmount_eq (r : RawRow) : signedAmount r = inPart r - outPart r := by
  unfold signedAmount inPart outPart
  by_cases hA : jsUpper r.type = "IN"
  · have hB : ¬jsUpper r.type = "OUT" := by rw [hA]; decide
    simp [hA, hB]
  · by_cases hB : jsUpper r.type = "OUT"
    · simp [hA, hB]
    · simp [hA, hB]

theorem normalizeFrom_length (b : Int) (l : List RawRow) :
    (normalizeFrom b l).length = l.length := by
  induction l generalizing b with
  | nil => rfl
  | cons r rs ih => simp [normalizeFrom, ih]

theorem normalizeFrom_getD_amount (l : List RawRow) (b : Int) (i : Nat)
    (h : i < l.length) :
    ((normalizeFrom b l).getD i dummyN).amount = ((l.getD i dummyRaw).amount).coerce0 := by
  induction l generalizing b i with
  | nil => cases h
  | cons r rs ih =>
    cases i with
    | zero => simp [normalizeFrom]
    | succ j =>
      have hj : j < rs.length := by simpa using h
      simpa [normalizeFrom] using ih (nextBal b r) j hj

theorem normalizeFrom_getD_balance (l : List RawRow) (b : Int) (i : Nat)
    (h : i < l.length) :
    ((normalizeFrom b l).getD i dummyN).balance
      = b + ((l.take (i + 1)).map signedAmount).sum := by
  induction l generalizing b i with
  | nil => cases h
  | cons r rs ih =>
    cases i with
    | zero => simp [normalizeFrom, nextBal_eq]
    | succ j =>
      have hj : j < rs.length := by simpa using h
      have := ih (nextBal b r) j hj
      simp only [normalizeFrom, List.getD_cons_succ, List.take_succ_cons,
        List.map_cons, List.sum_cons] at this ⊢
      rw [this, nextBal_eq]
      ring

theorem take_one_map_sum (l : List RawRow) (h : 0 < l.length) :
    ((l.take 1).map signedAmount).sum = signedAmount (l.getD 0 dummyRaw) := by
  cases l with
  | nil => cases h
  | cons r rs => simp

/-- C1: normalization is a pure running-sum fold: each output row's balance
is the previous output balance (0 for the first row) plus the signed amount
of the raw row (`+amount` on uppercased type `IN`, `-amount` on `OUT`, `0`
otherwise, amount coerced with `0` for failed coercion), each output row's
amount is the coerced amount, lengths agree, and an empty input produces an
empty output. -/
theorem C1_normalize_running_sum (l : List RawRow) (i : Nat) (h : i < l.length) :
    normalize ([] : List RawRow) = []
    ∧ (normalize l).length = l.length
    ∧ ((normalize l).getD i dummyN).amount = ((l.getD i dummyRaw).amount).coerce0
    ∧ ((normalize l).getD i dummyN).balance
        = (if i = 0 then 0 else ((normalize l).getD (i - 1) dummyN).balance)
          + signedAmount (l.getD i dummyRaw) := by
  refine ⟨rfl, normalizeFrom_length 0 l, normalizeFrom_getD_amount l 0 i h, ?_⟩
  cases i with
  | zero =>
    rw [normalize, normalizeFrom_getD_balance l 0 0 h, take_one_map_sum l h]
    simp
  | succ j =>
    have hj : j < l.length := Nat.lt_of_succ_lt h
    rw [normalize, normalizeFrom_getD_balance l 0 (j + 1) h]
    simp only [Nat.succ_ne_zero, if_false, Nat.add_sub_cancel]
    rw [normalizeFrom_getD_balance l 0 j hj]
    have hmap : j + 1 < (l.map signedAmount).length := by simpa using h
    have hs := List.sum_take_succ (l.map signedAmount) (j + 1) hmap
    have hg : (l.map signedAmount)[j + 1] = signedAmount (l.getD (j + 1) dummyRaw) := by
      rw [List.getD_eq_getElem l dummyRaw h]
      simp
    rw [hg] at hs
    rw [← List.map_take, ← List.map_take] at hs
    rw [hs]
    ring

/-- C1 witness at a concrete two-row ledger. -/
theorem C1_normalize_running_sum_witness :
    (1 : Nat) < ([⟨"2025-01-01", "a", "", "in", .num 100⟩,
        ⟨"2025-01-02", "b", "", "OUT", .num 30⟩] : List RawRow).length
    ∧ (normalize ([] : List RawRow) = []
      ∧ (normalize [⟨"2025-01-01", "a", "", "in", .num 100⟩,
          ⟨"2025-01-02", "b", "", "OUT", .num 30⟩]).length
          = ([⟨"2025-01-01", "a", "", "in", .num 100⟩,
          ⟨"2025-01-02", "b", "", "OUT", .num 30⟩] : List RawRow).length
      ∧ ((normalize [⟨"2025-01-01", "a", "", "in", .num 100⟩,
          ⟨"2025-01-02", "b", "", "OUT", .num 30⟩]).getD 1 dummyN).amount
          = ((([⟨"2025-01-01", "a", "", "in", .num 100⟩,
          ⟨"2025-01-02", "b", "", "OUT", .num 30⟩] : List RawRow).getD 1 dummyRaw).amount).coerce0
      ∧ ((normalize [⟨"2025-01-01", "a", "", "in", .num 100⟩,
          ⟨"2025-01-02", "b", "", "OUT", .num 30⟩]).getD 1 dummyN).balance
          = (if (1 : Nat) = 0 then 0
            else ((normalize [⟨"2025-01-01", "a", "", "in", .num 100⟩,
              ⟨"2025-01-02", "b", "", "OUT", .num 30⟩]).getD (1 - 1) dummyN).balance)
            + signedAmount (([⟨"2025-01-01", "a", "", "in", .num 100⟩,
              ⟨"2025-01-02", "b", "", "OUT", .num 30⟩] : List RawRow).getD 1 dummyRaw)) :=
  ⟨by decide,
    C1_normalize_running_sum
      [⟨"2025-01-01", "a", "", "in", .num 100⟩, ⟨"2025-01-02", "b", "", "OUT", .num 30⟩]
      1 (by decide)⟩

theorem sumIn_cons (r : RawRow) (rs : List RawRow) :
    sumIn (r :: rs) = inPart r + sumIn rs := by simp [sumIn]

theorem sumOut_cons (r : RawRow) (rs : List RawRow) :
    sumOut (r :: rs) = outPart r + sumOut rs := by simp [sumOut]

theorem normalizeFrom_getLast (l : List RawRow) (b : Int) (h : l ≠ []) :
    ((normalizeFrom b l).getLast?).map NRow.balance = some (b + sumIn l - sumOut l) := by
  induction l generalizing b with
  | nil => exact absurd rfl h
  | cons r rs ih =>
    cases rs with
    | nil =>
      show Option.map NRow.balance
          ([(⟨r.date, r.name, r.description, r.type, r.amount.coerce0, nextBal b r⟩ : NRow)]).getLast?
        = some (b + sumIn [r] - sumOut [r])
      rw [sumIn_cons, sumOut_cons]
      simp [sumIn, sumOut, nextBal_eq, signedAmount_eq]
      ring
    | cons r2 rs2 =>
      have step : normalizeFrom b (r :: r2 :: rs2)
          = ⟨r.date, r.name, r.description, r.type, r.amount.coerce0, nextBal b r⟩
            :: normalizeFrom (nextBal b r) (r2 :: rs2) := rfl
      have tail : normalizeFrom (nextBal b r) (r2 :: rs2)
          = ⟨r2.date, r2.name, r2.description, r2.type, r2.amount.coerce0, nextBal (nextBal b r) r2⟩
            :: normalizeFrom (nextBal (nextBal b r) r2) rs2 := rfl
      rw [step, tail, List.getLast?_cons_cons, ← tail,
        ih (nextBal b r) (by simp), nextBal_eq, signedAmount_eq,
        sumIn_cons r (r2 :: rs2), sumOut_cons r (r2 :: rs2)]
      congr 1
      ring

/-- C3: the final balance produced by normalization equals the sum of the
(coerced) amounts of all `IN` rows minus the sum of all `OUT` rows; rows of
any other type (including `INOUT`) contribute nothing. -/
theorem C3_final_balance (l : List RawRow) :
    finalBalance (normalize l) = sumIn l - sumOut l := by
  cases l with
  | nil => rfl
  | cons r rs =>
    have h := normalizeFrom_getLast (r :: rs) 0 (by simp)
    unfold finalBalance normalize
    rw [h]
    simp

/-- The raw projection of an annotated row: the row as it would be re-read
from a store (its numeric amount is a JSON number). -/
def rawProj (x : NRow) : RawRow := ⟨x.date, x.name, x.description, x.type, .num x.amount⟩

theorem normalizeFrom_idem (l : List RawRow) (b : Int) :
    normalizeFrom b ((normalizeFrom b l).map rawProj) = normalizeFrom b l := by
  induction l generalizing b with
  | nil => rfl
  | cons r rs ih =>
    have key : normalizeFrom b ((normalizeFrom b (r :: rs)).map rawProj)
        = ⟨r.date, r.name, r.description, r.type, r.amount.coerce0, nextBal b r⟩
          :: normalizeFrom (nextBal b r) ((normalizeFrom (nextBal b r) rs).map rawProj) := rfl
    rw [key, ih (nextBal b r)]
    rfl

/-- C8: normalization is idempotent: re-normalizing the raw projection of an
already-normalized sequence reproduces it, in particular the same amounts and
the same balances. -/
theorem C8_normalize_idempotent (l : List RawRow) :
    normalize ((normalize l).map rawProj) = normalize l
    ∧ (normalize ((normalize l).map rawProj)).map NRow.amount = (normalize l).map NRow.amount
    ∧ (normalize ((normalize l).map rawProj)).map NRow.balance = (normalize l).map NRow.balance := by
  have h := normalizeFrom_idem l 0
  exact ⟨h, by rw [normalize] at *; rw [h], by rw [normalize] at *; rw [h]⟩

/-! ## The submit handler (`handleSubmit`, part_000 lines 117-178) -/

/-- A form `amount` value: the source `Row` type admits `number | string`
(the amount `<input>` stores strings; `empty` initialises it to `""`). -/
inductive FormAmount where
  | num (n : Int)
  | str (s : String)
deriving DecidableEq

/-- Value of a list of decimal digit characters, most significant first. -/
def digitsVal (ds : List Char) : Nat := ds.foldl (fun a c => a * 10 + (c.toNat - 48)) 0

/-- JS `Number(·)` on strings, restricted to optional-sign decimal integer
literals: `""` coerces to `0` (JS), a signed digit string to its value, and
any other string to `NaN` (`none`). Fractional, hex and whitespace-padded
literals are outside the modelled input domain. -/
def jsStrToNumber (s : String) : Option Int :=
  if s = "" then some 0
  else match s.data with
    | '-' :: ds => if ds ≠ [] ∧ ds.all Char.isDigit then some (-(digitsVal ds : Int)) else none
    | '+' :: ds => if ds ≠ [] ∧ ds.all Char.isDigit then some (digitsVal ds : Int) else none
    | ds => if ds.all Char.isDigit then some (digitsVal ds : Int) else none

/-- JS `Number(·)` on a form amount; `none` models `NaN`. -/
def FormAmount.toNumber : FormAmount → Option Int
  | .num n => some n
  | .str s => jsStrToNumber s

/-- JS `String(·)` of a form amount (used for the `FormData` payload). -/
def FormAmount.jsString : FormAmount → String
  | .num n => toString n
  | .str s => s

/-- The submit form state (source type `Row` as used for `form`). -/
structure FormRow where
  date : String
  name : String
  description : String
  type : String
  amount : FormAmount
deriving DecidableEq

/-- The initial/cleared form (source constant `empty`). -/
def empty : FormRow := ⟨"", "", "", "OUT", .str ""⟩

/-- The validation test of `handleSubmit`:
`!form.date || form.amount === "" || form.amount === 0` — for a string date
`!` holds exactly on `""`, and `===` is strict equality on the
`number | string` union. -/
def invalidForm (f : FormRow) : Bool :=
  f.date == "" || f.amount == FormAmount.str "" || f.amount == FormAmount.num 0

/-- A notification raised through the alert capability
(`Swal.fire(title, text, icon)`). -/
structure Notif where
  title : String
  text : String
  icon : String
deriving DecidableEq

/-- Outcome of the remote `POST` as observed by `handleSubmit`: HTTP OK
response, non-OK status, or a thrown transport error. -/
inductive RemoteResp where
  | ok
  | httpError
  | exn
deriving DecidableEq

/-- The observable effects of one `handleSubmit` run: the notification it
fires, the resulting in-memory `rows` state, the argument of its
`persistLocal` call if one is made, the form-encoded `POST` payload if a
request was sent, whether the remote sink recorded the entry (modelled from
the spec: a write that is reported failed records nothing), the resulting
form state and whether a reload (`fetchData`) was triggered. -/
structure SubmitOutcome where
  notif : Notif
  rows : List NRow
  persistedLocal : Option (List NRow)
  posted : Option (List (String × String))
  remoteSaved : Bool
  form : FormRow
  refetch : Bool
deriving DecidableEq

/-- The rejection outcome: a warning notification and nothing else
(no state change, no persist, no request). -/
def rejectOutcome (f : FormRow) (rows : List NRow) : SubmitOutcome :=
  ⟨⟨"Required", "Date & amount are required", "warning"⟩, rows, none, none, false, f, false⟩

/-- `const lastBalance = rows.length ? rows[0].balance || 0 : 0;` —
`balance` is an integer in every in-memory row, so `|| 0` is the identity
(`0 || 0 = 0`). -/
def lastBalance (rows : List NRow) : Int :=
  match rows with
  | [] => 0
  | r :: _ => r.balance

/-- `handleSubmit` (part_000 lines 117-178), for a form whose amount
coercion succeeds; a `NaN`-producing amount (a non-empty, non-numeric
string) is outside the integer embedding and yields `none`. `sheetUrl`
is the presence of the remote endpoint; `resp` the behaviour of the
`POST` request issued on the remote path. -/
def handleSubmit (sheetUrl : Bool) (resp : RemoteResp) (f : FormRow) (rows : List NRow) :
    Option SubmitOutcome :=
  if invalidForm f then some (rejectOutcome f rows)
  else match f.amount.toNumber with
    | none => none
    | some amt =>
      let newBalance : Int :=
        if f.type = "IN" then lastBalance rows + amt
        else if f.type = "OUT" then lastBalance rows - amt
        else lastBalance rows
      let newRow : NRow := ⟨f.date, f.name, f.description, f.type, amt, newBalance⟩
      if sheetUrl = false then
        let updated := newRow :: rows
        some ⟨⟨"Saved", "Transaction added (local)", "success"⟩, updated,
          some updated.reverse, none, false, empty, false⟩
      else
        let payload := [("date", f.date), ("name", f.name), ("description", f.description),
          ("type", f.type), ("amount", f.amount.jsString), ("balance", toString newBalance)]
        match resp with
        | .ok => some ⟨⟨"Saved", "Transaction added", "success"⟩, rows, none,
            some payload, true, empty, true⟩
        | .httpError => some ⟨⟨"Error", "Failed to save data", "error"⟩, rows, none,
            some payload, false, f, false⟩
        | .exn => some ⟨⟨"Error", "Something went wrong", "error"⟩, rows, none,
            some payload, false, f, false⟩

/-- Signed amount of a submitted form, as the claim words it: `+amount` for
type `IN`, `-amount` for `OUT`, `0` otherwise (comparison on the form's
type string, which `handleSubmit` does not uppercase). -/
def formSigned (f : FormRow) (a : Int) : Int :=
  if f.type = "IN" then a else if f.type = "OUT" then -a else 0

theorem newBalance_eq_signed (b a : Int) (ty : String) :
    (if ty = "IN" then b + a else if ty = "OUT" then b - a else b)
      = b + (if ty = "IN" then a else if ty = "OUT" then -a else 0) := by
  split_ifs <;> omega

/-- C2: on the validated local success path, the appended row's balance is
the balance of the newest (head) in-memory entry — `0` on an empty ledger —
plus the signed amount of the form (`+amount` for `IN`, `-amount` for `OUT`,
`0` otherwise, so an `INOUT` append leaves the balance unchanged), and the
new annotated row is prepended to the newest-first in-memory state. -/
theorem C2_append_balance_prepend (f : FormRow) (rows : List NRow) (a : Int) (resp : RemoteResp)
    (hv : invalidForm f = false) (ha : f.amount.toNumber = some a) :
    handleSubmit false resp f rows
      = some ⟨⟨"Saved", "Transaction added (local)", "success"⟩,
          ⟨f.date, f.name, f.description, f.type, a, lastBalance rows + formSigned f a⟩ :: rows,
          some ((⟨f.date, f.name, f.description, f.type, a,
            lastBalance rows + formSigned f a⟩ :: rows).reverse),
          none, false, empty, false⟩ := by
  unfold handleSubmit
  rw [hv, ha]
  simp only [Bool.false_eq_true, if_false]
  rw [newBalance_eq_signed (lastBalance rows) a f.type]
  rfl

/-- C2 witness: appending `type:"INOUT"`, `amount:"40"` to a ledger whose
newest entry has balance `70` leaves the balance at `70`. -/
theorem C2_append_balance_prepend_witness :
    lastBalance [⟨"2025-01-01", "", "", "IN", 70, 70⟩]
        + formSigned ⟨"2025-02-01", "n", "d", "INOUT", .str "40"⟩ 40 = 70
    ∧ handleSubmit false .ok ⟨"2025-02-01", "n", "d", "INOUT", .str "40"⟩
        [⟨"2025-01-01", "", "", "IN", 70, 70⟩]
      = some ⟨⟨"Saved", "Transaction added (local)", "success"⟩,
          ⟨"2025-02-01", "n", "d", "INOUT", 40,
            lastBalance [⟨"2025-01-01", "", "", "IN", 70, 70⟩]
              + formSigned ⟨"2025-02-01", "n", "d", "INOUT", .str "40"⟩ 40⟩
            :: [⟨"2025-01-01", "", "", "IN", 70, 70⟩],
          some ((⟨"2025-02-01", "n", "d", "INOUT", 40,
            lastBalance [⟨"2025-01-01", "", "", "IN", 70, 70⟩]
              + formSigned ⟨"2025-02-01", "n", "d", "INOUT", .str "40"⟩ 40⟩
            :: [⟨"2025-01-01", "", "", "IN", 70, 70⟩]).reverse),
          none, false, empty, false⟩ :=
  ⟨by decide,
    C2_append_balance_prepend ⟨"2025-02-01", "n", "d", "INOUT", .str "40"⟩
      [⟨"2025-01-01", "", "", "IN", 70, 70⟩] 40 .ok (by decide) (by decide)⟩

theorem handleSubmit_title_of_valid (u : Bool) (resp : RemoteResp) (f : FormRow)
    (rows : List NRow) (hi : invalidForm f = false) (o : SubmitOutcome)
    (h : handleSubmit u resp f rows = some o) : o.notif.title ≠ "Required" := by
  unfold handleSubmit at h
  rw [hi] at h
  simp only [Bool.false_eq_true, if_false] at h
  cases hn : f.amount.toNumber with
  | none => rw [hn] at h; cases h
  | some a =>
    rw [hn] at h
    cases u <;> cases resp <;>
      · rw [← Option.some.inj h]
        simp

/-- C4 counterexample: the form `{date:"2025-01-01", type:"OUT", amount:"0"}`
carries a zero amount (its coerced value is `0`), so the claim requires
rejection; `handleSubmit` accepts it — on the local path it appends and
persists a zero-amount row. -/
theorem C4_counterexample :
    ((⟨"2025-01-01", "", "", "OUT", .str "0"⟩ : FormRow).date ≠ ""
      ∧ (⟨"2025-01-01", "", "", "OUT", .str "0"⟩ : FormRow).amount.toNumber = some 0)
    ∧ handleSubmit false .ok ⟨"2025-01-01", "", "", "OUT", .str "0"⟩ []
        = some ⟨⟨"Saved", "Transaction added (local)", "success"⟩,
            [⟨"2025-01-01", "", "", "OUT", 0, 0⟩], some [⟨"2025-01-01", "", "", "OUT", 0, 0⟩],
            none, false, empty, false⟩ := by
  refine ⟨⟨?_, ?_⟩, ?_⟩ <;> decide

/-- C4 (amended): `handleSubmit` rejects exactly when the date is empty, the
amount is the empty string, or the amount is the number `0` under strict
equality — an amount supplied as the string `"0"`, though it coerces to
zero, is accepted. On rejection it raises the validation warning and changes
no state: rows untouched, nothing persisted, no request sent. -/
theorem C4_validation_exact (u : Bool) (resp : RemoteResp) (f : FormRow) (rows : List NRow) :
    (handleSubmit u resp f rows = some (rejectOutcome f rows)
      ↔ (f.date = "" ∨ f.amount = FormAmount.str "" ∨ f.amount = FormAmount.num 0))
    ∧ (rejectOutcome f rows).rows = rows
    ∧ (rejectOutcome f rows).persistedLocal = none
    ∧ (rejectOutcome f rows).posted = none
    ∧ (rejectOutcome f rows).remoteSaved = false
    ∧ (rejectOutcome f rows).notif = ⟨"Required", "Date & amount are required", "warning"⟩ := by
  refine ⟨⟨?_, ?_⟩, rfl, rfl, rfl, rfl, rfl⟩
  · intro h
    by_cases hi : invalidForm f = true
    · simp only [invalidForm, Bool.or_eq_true, beq_iff_eq] at hi
      tauto
    · exact absurd rfl
        (handleSubmit_title_of_valid u resp f rows (by simpa using hi) _ h)
  · intro hd
    have hi : invalidForm f = true := by
      simp only [invalidForm, Bool.or_eq_true, beq_iff_eq]
      tauto
    unfold handleSubmit
    rw [hi]
    rfl

/-- C5: a validated append against the remote store whose write fails
(non-OK response status or a thrown transport error) raises a failure
notification, persists the entry nowhere — the remote sink records nothing
and no local write happens — and leaves the in-memory rows (and the form)
unchanged. -/
theorem C5_remote_write_failure (f : FormRow) (rows : List NRow) (resp : RemoteResp) (a : Int)
    (hv : invalidForm f = false) (ha : f.amount.toNumber = some a) (hr : resp ≠ .ok) :
    ∃ o, handleSubmit true resp f rows = some o
      ∧ o.rows = rows ∧ o.persistedLocal = none ∧ o.remoteSaved = false
      ∧ o.notif.icon = "error" ∧ o.form = f ∧ o.refetch = false := by
  unfold handleSubmit
  rw [hv, ha]
  simp only [Bool.false_eq_true, if_false]
  cases resp with
  | ok => exact absurd rfl hr
  | httpError => exact ⟨_, rfl, rfl, rfl, rfl, rfl, rfl, rfl⟩
  | exn => exact ⟨_, rfl, rfl, rfl, rfl, rfl, rfl, rfl⟩

/-- C5 witness at a concrete failing POST. -/
theorem C5_remote_write_failure_witness :
    ∃ o, handleSubmit true .httpError ⟨"2025-03-01", "n", "d", "OUT", .str "10"⟩ [] = some o
      ∧ o.rows = [] ∧ o.persistedLocal = none ∧ o.remoteSaved = false
      ∧ o.notif.icon = "error" ∧ o.form = ⟨"2025-03-01", "n", "d", "OUT", .str "10"⟩
      ∧ o.refetch = false :=
  C5_remote_write_failure ⟨"2025-03-01", "n", "d", "OUT", .str "10"⟩ [] .httpError 10
    (by decide) (by decide) (by decide)

/-! ## The delete handler (`handleDelete`, part_000 lines 181-195) -/

/-- `handleDelete` on the newest-first in-memory list. The confirmation
dialog's boolean decides: declined (`!res.isConfirmed`) is a no-op;
confirmed removes the row at `index`
(`rows.slice(0, index).concat(rows.slice(index + 1))`), sets the new state
and persists its chronological reversal
(`persistLocal(updated.slice().reverse())`). Returns the resulting rows and
the `persistLocal` argument, if any. -/
def handleDelete (rows : List NRow) (index : Nat) (confirmed : Bool) :
    List NRow × Option (List NRow) :=
  if confirmed = false then (rows, none)
  else
    let updated := rows.take index ++ rows.drop (index + 1)
    (updated, some updated.reverse)

/-- C7: a declined delete changes nothing and persists nothing; a confirmed
delete at a valid index removes exactly the row at that index from the
newest-first state and persists the remaining rows in chronological
(reversed) order, leaving one row fewer. -/
theorem C7_delete (rows : List NRow) (index : Nat) (h : index < rows.length) :
    handleDelete rows index false = (rows, none)
    ∧ handleDelete rows index true
        = (rows.eraseIdx index, some ((rows.eraseIdx index).reverse))
    ∧ (rows.eraseIdx index).length = rows.length - 1 := by
  refine ⟨rfl, ?_, ?_⟩
  · unfold handleDelete
    rw [List.eraseIdx_eq_take_drop_succ]
    rfl
  · rw [List.length_eraseIdx]
    simp [h]

/-- C7 witness: confirming the delete of the middle entry of a 3-entry list
leaves 2 entries and persists them chronologically. -/
theorem C7_delete_witness :
    handleDelete [⟨"2025-01-03", "c", "", "IN", 5, 12⟩, ⟨"2025-01-02", "b", "", "IN", 3, 7⟩,
        ⟨"2025-01-01", "a", "", "IN", 4, 4⟩] 1 false
      = ([⟨"2025-01-03", "c", "", "IN", 5, 12⟩, ⟨"2025-01-02", "b", "", "IN", 3, 7⟩,
        ⟨"2025-01-01", "a", "", "IN", 4, 4⟩], none)
    ∧ handleDelete [⟨"2025-01-03", "c", "", "IN", 5, 12⟩, ⟨"2025-01-02", "b", "", "IN", 3, 7⟩,
        ⟨"2025-01-01", "a", "", "IN", 4, 4⟩] 1 true
      = (([⟨"2025-01-03", "c", "", "IN", 5, 12⟩, ⟨"2025-01-02", "b", "", "IN", 3, 7⟩,
          ⟨"2025-01-01", "a", "", "IN", 4, 4⟩] : List NRow).eraseIdx 1,
        some ((([⟨"2025-01-03", "c", "", "IN", 5, 12⟩, ⟨"2025-01-02", "b", "", "IN", 3, 7⟩,
          ⟨"2025-01-01", "a", "", "IN", 4, 4⟩] : List NRow).eraseIdx 1).reverse))
    ∧ (([⟨"2025-01-03", "c", "", "IN", 5, 12⟩, ⟨"2025-01-02", "b", "", "IN", 3, 7⟩,
        ⟨"2025-01-01", "a", "", "IN", 4, 4⟩] : List NRow).eraseIdx 1).length
      = ([⟨"2025-01-03", "c", "", "IN", 5, 12⟩, ⟨"2025-01-02", "b", "", "IN", 3, 7⟩,
        ⟨"2025-01-01", "a", "", "IN", 4, 4⟩] : List NRow).length - 1 :=
  C7_delete [⟨"2025-01-03", "c", "", "IN", 5, 12⟩, ⟨"2025-01-02", "b", "", "IN", 3, 7⟩,
    ⟨"2025-01-01", "a", "", "IN", 4, 4⟩] 1 (by decide)

/-! ## CSV export (`downloadExcel`, part_000 lines 198-222) -/

/-- `String.prototype.replace(/"/g, '""')`: double every double-quote. -/
def escQuotes (s : String) : String :=
  ⟨(s.data.map (fun c => if c = '"' then ['"', '"'] else [c])).flatten⟩

/-- `String.prototype.replace(/,$/, '')`: drop a single trailing comma. -/
def stripTrailingComma (s : String) : String :=
  match s.data.getLast? with
  | some ',' => ⟨s.data.dropLast⟩
  | _ => s

/-- One quoted CSV field of `downloadExcel`:
the template wraps the escaped text in double quotes and appends a comma,
which the `/,$/` replace then strips again. -/
def csvField (s : String) : String := stripTrailingComma ("\"" ++ escQuotes s ++ "\"" ++ ",")

/-- One data line of `downloadExcel` (fields joined with `","`): quoted
date (human-formatted by `formatDate`, passed in as `fmt` because it
depends on JS `Date` parsing and the runtime locale), quoted name
(`r.name || ""` is the identity on strings), quoted description, quoted
type, then the two raw numbers. -/
def csvLine (fmt : String → String) (r : NRow) : String :=
  String.intercalate ","
    [csvField (fmt r.date), csvField r.name, csvField r.description, csvField r.type,
      toString r.amount, toString r.balance]

/-- The blob content of `downloadExcel`: the joined header row, then one
line per in-memory row, all joined with newlines. -/
def downloadExcel (fmt : String → String) (rows : List NRow) : String :=
  String.intercalate "\n"
    (String.intercalate "," ["Date", "Name", "Description", "Type", "Amount", "Balance"]
      :: rows.map (csvLine fmt))

/-- A data line as the claim describes it: every text field wrapped in
double quotes with internal quotes doubled, numeric fields unquoted,
comma-separated. -/
def claimCsvLine (fmt : String → String) (r : NRow) : String :=
  ("\"" ++ escQuotes (fmt r.date) ++ "\"") ++ "," ++ ("\"" ++ escQuotes r.name ++ "\"") ++ ","
    ++ ("\"" ++ escQuotes r.description ++ "\"") ++ "," ++ ("\"" ++ escQuotes r.type ++ "\"")
    ++ "," ++ toString r.amount ++ "," ++ toString r.balance

theorem stripTrailingComma_concat (t : String) : stripTrailingComma (t ++ ",") = t := by
  unfold stripTrailingComma
  have h1 : (t ++ ",").data = t.data ++ [','] := by rw [String.data_append]
  rw [h1, List.getLast?_concat, List.dropLast_concat]
  rfl

theorem csvField_eq (s : String) : csvField s = "\"" ++ escQuotes s ++ "\"" :=
  stripTrailingComma_concat _

theorem csvLine_eq_claim (fmt : String → String) (r : NRow) :
    csvLine fmt r = claimCsvLine fmt r := by
  unfold csvLine claimCsvLine
  rw [csvField_eq, csvField_eq, csvField_eq, csvField_eq]
  simp only [String.intercalate, String.intercalate.go, String.append_assoc]

/-- C9: the CSV export is the header line
`Date,Name,Description,Type,Amount,Balance` followed by one comma-separated
line per row, each text field (formatted date, name, description, type)
wrapped in double quotes with internal double quotes escaped by doubling,
and the amount and balance emitted as unquoted numbers. -/
theorem C9_csv_format (fmt : String → String) (rows : List NRow) :
    downloadExcel fmt rows
      = String.intercalate "\n"
          ("Date,Name,Description,Type,Amount,Balance" :: rows.map (claimCsvLine fmt)) := by
  unfold downloadExcel
  have hmap : rows.map (csvLine fmt) = rows.map (claimCsvLine fmt) :=
    List.map_congr_left (fun r _ => csvLine_eq_claim fmt r)
  rw [hmap]
  rfl

/-! ## The local store (`persistLocal` / `loadLocal`, part_000 lines 44-60)

`persistLocal` writes `JSON.stringify(data)` under the fixed key `LS_KEY`;
`loadLocal` reads it back with `JSON.parse`, returning `[]` when the key is
absent, empty, or fails to parse. The JSON codec below implements
`JSON.stringify` for the row arrays the component persists (annotated rows,
object keys in literal order date, name, description, type, amount,
balance) and a recursive-descent `JSON.parse` for that sublanguage.
`JSON.stringify` additionally escapes control characters and
`JSON.parse` accepts whitespace, other key orders and non-array documents;
those inputs never arise on the component's own write path and are outside
the embedding. -/

/-- JSON escaping of one string character: `"` and `\` get a backslash,
everything else is literal. -/
def escChar (c : Char) : List Char :=
  if c = '"' ∨ c = '\\' then ['\\', c] else [c]

/-- JSON escaping of a string body. -/
def escStr (cs : List Char) : List Char := (cs.map escChar).flatten

/-- JSON string literal of `s`. -/
def encStr (s : String) : List Char := '"' :: (escStr s.data ++ ['"'])

/-- Decimal digit character of `d` (meaningful for `d < 10`). -/
def digChar (d : Nat) : Char :=
  match d with
  | 0 => '0'
  | 1 => '1'
  | 2 => '2'
  | 3 => '3'
  | 4 => '4'
  | 5 => '5'
  | 6 => '6'
  | 7 => '7'
  | 8 => '8'
  | _ => '9'

/-- Reversed decimal digits of `n` (empty for `0`). -/
def natDigsRev (n : Nat) : List Char :=
  if h : n = 0 then []
  else digChar (n % 10) :: natDigsRev (n / 10)
decreasing_by exact Nat.div_lt_self (Nat.pos_of_ne_zero h) (by decide)

/-- Decimal representation of `n`. -/
def natStr (n : Nat) : List Char := if n = 0 then ['0'] else (natDigsRev n).reverse

/-- JSON number literal of an integer. -/
def encInt (n : Int) : List Char :=
  if n < 0 then '-' :: natStr n.natAbs else natStr n.natAbs

/-- Object-literal punctuation, char-level. -/
def litObjDate : List Char := ['{', '"', 'd', 'a', 't', 'e', '"', ':']

def litName : List Char := [',', '"', 'n', 'a', 'm', 'e', '"', ':']

def litDescription : List Char :=
  [',', '"', 'd', 'e', 's', 'c', 'r', 'i', 'p', 't', 'i', 'o', 'n', '"', ':']

def litType : List Char := [',', '"', 't', 'y', 'p', 'e', '"', ':']

def litAmount : List Char := [',', '"', 'a', 'm', 'o', 'u', 'n', 't', '"', ':']

def litBalance : List Char := [',', '"', 'b', 'a', 'l', 'a', 'n', 'c', 'e', '"', ':']

def litClose : List Char := ['}']

/-- `JSON.stringify` of one persisted row. -/
def encRow (r : NRow) : List Char :=
  litObjDate ++ encStr r.date ++ litName ++ encStr r.name
    ++ litDescription ++ encStr r.description ++ litType ++ encStr r.type
    ++ litAmount ++ encInt r.amount ++ litBalance ++ encInt r.balance ++ litClose

/-- The encoding of the tail of a row array: `,row` repeated, then `]`. -/
def encMore (rs : List NRow) : List Char :=
  (rs.map (fun x => ',' :: encRow x)).flatten ++ [']']

/-- `JSON.stringify` of a row array. -/
def encRows (rs : List NRow) : List Char :=
  match rs with
  | [] => ['[', ']']
  | r :: rest => '[' :: (encRow r ++ encMore rest)

/-- Strip an expected literal prefix, or fail. -/
def dropLit : List Char → List Char → Option (List Char)
  | [], rest => some rest
  | _ :: _, [] => none
  | c :: cs, d :: ds => if c = d then dropLit cs ds else none

/-- Parse a JSON string body after the opening quote; a backslash escapes
the following character. -/
def parseStrBody : List Char → Option (List Char × List Char)
  | [] => none
  | c :: rest =>
    if c = '"' then some ([], rest)
    else if c = '\\' then
      match rest with
      | [] => none
      | d :: rest2 =>
        match parseStrBody rest2 with
        | none => none
        | some (s, r) => some (d :: s, r)
    else
      match parseStrBody rest with
      | none => none
      | some (s, r) => some (c :: s, r)

/-- Parse a JSON string literal. -/
def parseJString (l : List Char) : Option (String × List Char) :=
  match l with
  | [] => none
  | c :: rest =>
    if c = '"' then
      match parseStrBody rest with
      | none => none
      | some (s, r) => some (⟨s⟩, r)
    else none

/-- Consume leading decimal digits, accumulating their value. -/
def parseDigs (acc : Nat) : List Char → Nat × List Char
  | [] => (acc, [])
  | c :: rest =>
    if c.isDigit then parseDigs (acc * 10 + (c.toNat - 48)) rest else (acc, c :: rest)

/-- Parse a JSON integer: an optional minus sign, then at least one digit. -/
def parseInt (l : List Char) : Option (Int × List Char) :=
  match l with
  | [] => none
  | c :: rest =>
    if c = '-' then
      match rest with
      | [] => none
      | d :: _ =>
        if d.isDigit then
          let vr := parseDigs 0 rest
          some (-(vr.1 : Int), vr.2)
        else none
    else if c.isDigit then
      let vr := parseDigs 0 (c :: rest)
      some ((vr.1 : Int), vr.2)
    else none

/-- Parse one row object (fixed key order, as the component stringifies). -/
def parseRow (l : List Char) : Option (NRow × List Char) := do
  let l1 ← dropLit litObjDate l
  let (d, l2) ← parseJString l1
  let l3 ← dropLit litName l2
  let (nm, l4) ← parseJString l3
  let l5 ← dropLit litDescription l4
  let (ds, l6) ← parseJString l5
  let l7 ← dropLit litType l6
  let (ty, l8) ← parseJString l7
  let l9 ← dropLit litAmount l8
  let (am, l10) ← parseInt l9
  let l11 ← dropLit litBalance l10
  let (bl, l12) ← parseInt l11
  let l13 ← dropLit litClose l12
  pure (⟨d, nm, ds, ty, am, bl⟩, l13)

/-- Parse the rest of a row array after its first element: a `,row` list
closed by `]`. Each step consumes at least one character, so a fuel of the
input length plus one never runs out. -/
def parseRowsMore (fuel : Nat) (l : List Char) : Option (List NRow × List Char) :=
  match fuel with
  | 0 => none
  | fuel + 1 =>
    match l with
    | [] => none
    | c :: rest =>
      if c = ']' then some ([], rest)
      else if c = ',' then
        match parseRow rest with
        | none => none
        | some (r, rest1) =>
          match parseRowsMore fuel rest1 with
          | none => none
          | some (rs, rest2) => some (r :: rs, rest2)
      else none

/-- Parse a row array. -/
def parseRowsTop (l : List Char) : Option (List NRow × List Char) :=
  match l with
  | [] => none
  | c :: rest =>
    if c = '[' then
      match rest with
      | [] => none
      | d :: rest1 =>
        if d = ']' then some ([], rest1)
        else
          match parseRow (d :: rest1) with
          | none => none
          | some (r, rest2) =>
            match parseRowsMore (rest2.length + 1) rest2 with
            | none => none
            | some (rs, rest3) => some (r :: rs, rest3)
    else none

/-- `JSON.stringify` of the persisted row array, as a string. -/
def jsonStringifyRows (rs : List NRow) : String := ⟨encRows rs⟩

/-- `JSON.parse` of a persisted row array: the whole text must be consumed. -/
def jsonParseRows (s : String) : Option (List NRow) :=
  match parseRowsTop s.data with
  | none => none
  | some (rs, []) => some rs
  | some (_, _ :: _) => none

/-- The fixed namespaced localStorage key. -/
def LS_KEY : String := "milkdiary_finance_rows_v1"

/-- `persistLocal` (part_000 lines 44-50): overwrite the slot at `LS_KEY`
with the serialized collection. (The `try/catch` around `setItem` only
swallows quota errors; the successful write is modelled.) -/
def persistLocal (data : List NRow) (storage : String → Option String) :
    String → Option String :=
  fun k => if k = LS_KEY then some (jsonStringifyRows data) else storage k

/-- `loadLocal` (part_000 lines 52-60): read the slot at `LS_KEY`; `!raw`
covers both an absent key and the empty string; a `JSON.parse` failure is
caught and yields `[]`. -/
def loadLocal (storage : String → Option String) : List NRow :=
  match storage LS_KEY with
  | none => []
  | some raw =>
    if raw = "" then []
    else
      match jsonParseRows raw with
      | none => []
      | some rows => rows

/-! ## `fetchData` (part_000 lines 63-110) -/

/-- Outcome of the remote read as observed by `fetchData`: a parsed JSON
array, or a failure (transport error or `res.json()` rejection). -/
inductive FetchResult where
  | ok (data : List RawRow)
  | fail
deriving DecidableEq

/-- `fetchData`: with no endpoint configured, normalize the local store;
with an endpoint, normalize the fetched array, and on any fetch/parse
failure fall back to the local store. All three branches run the identical
normalize-and-reverse code; rows read back from the local store re-enter it
through their raw projection (their stored `balance` is recomputed). -/
def fetchData (sheetUrl : Bool) (remote : FetchResult) (storage : String → Option String) :
    List NRow :=
  if sheetUrl = false then (normalize ((loadLocal storage).map rawProj)).reverse
  else
    match remote with
    | .ok data => (normalize data).reverse
    | .fail => (normalize ((loadLocal storage).map rawProj)).reverse

/-! ## Correctness of the JSON codec on the component's own output -/

theorem dropLit_append (lit rest : List Char) : dropLit lit (lit ++ rest) = some rest := by
  induction lit with
  | nil => rfl
  | cons c cs ih => simp [dropLit, ih]

theorem parseStrBody_escStr (cs : List Char) (rest : List Char) :
    parseStrBody (escStr cs ++ ('"' :: rest)) = some (cs, rest) := by
  induction cs with
  | nil =>
    have he : escStr [] = [] := rfl
    rw [he, List.nil_append, parseStrBody.eq_def]
    simp
  | cons c cs ih =>
    by_cases hc : c = '"' ∨ c = '\\'
    · have he : escStr (c :: cs) = '\\' :: (c :: escStr cs) := by
        simp [escStr, escChar, hc]
      rw [he, List.cons_append, List.cons_append, parseStrBody.eq_def]
      simp [ih]
    · have he : escStr (c :: cs) = c :: escStr cs := by
        simp [escStr, escChar, hc]
      rw [he, List.cons_append, parseStrBody.eq_def]
      have h1 : ¬c = '"' := fun h => hc (Or.inl h)
      have h2 : ¬c = '\\' := fun h => hc (Or.inr h)
      simp [h1, h2, ih]

theorem parseJString_enc (s : String) (rest : List Char) :
    parseJString (encStr s ++ rest) = some (s, rest) := by
  have h : encStr s ++ rest = '"' :: (escStr s.data ++ ('"' :: rest)) := by
    simp [encStr]
  rw [h]
  simp [parseJString, parseStrBody_escStr]

theorem digChar_isDigit (d : Nat) (h : d < 10) : (digChar d).isDigit = true := by
  interval_cases d <;> decide

theorem digChar_val (d : Nat) (h : d < 10) : (digChar d).toNat - 48 = d := by
  interval_cases d <;> decide

theorem natDigsRev_all_digits (n : Nat) : ∀ c ∈ natDigsRev n, c.isDigit = true := by
  induction n using Nat.strong_induction_on with
  | _ n ih =>
    by_cases h : n = 0
    · subst h
      rw [natDigsRev]
      simp
    · rw [natDigsRev, dif_neg h]
      intro c hc
      rcases List.mem_cons.mp hc with h1 | h1
      · subst h1
        exact digChar_isDigit _ (Nat.mod_lt n (by decide))
      · exact ih (n / 10) (Nat.div_lt_self (Nat.pos_of_ne_zero h) (by decide)) c h1

theorem natStr_all_digits (n : Nat) : ∀ c ∈ natStr n, c.isDigit = true := by
  unfold natStr
  by_cases h : n = 0
  · simp [h]
  · rw [if_neg h]
    intro c hc
    exact natDigsRev_all_digits n c (List.mem_reverse.mp hc)

theorem natStr_ne_nil (n : Nat) : natStr n ≠ [] := by
  unfold natStr
  by_cases h : n = 0
  · simp [h]
  · rw [if_neg h]
    intro hr
    have : natDigsRev n = [] := by simpa using congrArg List.reverse hr
    rw [natDigsRev, dif_neg h] at this
    cases this

/-- The next character is not a digit (so digit parsing stops exactly here). -/
def noDigitHead : List Char → Bool
  | [] => true
  | c :: _ => !c.isDigit

theorem parseDigs_append (ds : List Char) (rest : List Char) (acc : Nat)
    (hds : ∀ c ∈ ds, c.isDigit = true) (hrest : noDigitHead rest = true) :
    parseDigs acc (ds ++ rest)
      = (ds.foldl (fun a c => a * 10 + (c.toNat - 48)) acc, rest) := by
  induction ds generalizing acc with
  | nil =>
    cases rest with
    | nil => rfl
    | cons c r =>
      have hc : c.isDigit = false := by
        simp only [noDigitHead] at hrest
        simpa using hrest
      simp [parseDigs, hc]
  | cons c cs ih =>
    have hc : c.isDigit = true := hds c (by simp)
    simp only [List.cons_append, parseDigs, hc, if_true]
    exact ih _ (fun x hx => hds x (by simp [hx]))

theorem foldl_natDigsRev (n : Nat) :
    ∀ acc, (natDigsRev n).reverse.foldl (fun a c => a * 10 + (c.toNat - 48)) acc
      = acc * 10 ^ (natDigsRev n).length + n := by
  induction n using Nat.strong_induction_on with
  | _ n ih =>
    intro acc
    by_cases h : n = 0
    · subst h
      rw [natDigsRev]
      simp
    · rw [natDigsRev, dif_neg h, List.reverse_cons, List.foldl_append]
      rw [ih (n / 10) (Nat.div_lt_self (Nat.pos_of_ne_zero h) (by decide)) acc]
      simp only [List.foldl_cons, List.foldl_nil, List.length_cons]
      rw [digChar_val (n % 10) (Nat.mod_lt n (by decide))]
      have hdm := Nat.div_add_mod n 10
      rw [Nat.pow_succ]
      ring_nf
      omega

theorem foldl_natStr (n : Nat) :
    (natStr n).foldl (fun a c => a * 10 + (c.toNat - 48)) 0 = n := by
  unfold natStr
  by_cases h : n = 0
  · simp [h]
  · rw [if_neg h, foldl_natDigsRev n 0]
    simp

theorem parseDigs_natStr (n : Nat) (rest : List Char) (hrest : noDigitHead rest = true) :
    parseDigs 0 (natStr n ++ rest) = (n, rest) := by
  rw [parseDigs_append (natStr n) rest 0 (natStr_all_digits n) hrest, foldl_natStr]

theorem parseInt_enc (n : Int) (rest : List Char) (hrest : noDigitHead rest = true) :
    parseInt (encInt n ++ rest) = some (n, rest) := by
  obtain ⟨d, ds, hds⟩ := List.exists_cons_of_ne_nil (natStr_ne_nil n.natAbs)
  have hd : d.isDigit = true := natStr_all_digits n.natAbs d (by rw [hds]; simp)
  have hshape : natStr n.natAbs ++ rest = d :: (ds ++ rest) := by rw [hds]; rfl
  have hdig : parseDigs 0 (d :: (ds ++ rest)) = (n.natAbs, rest) := by
    rw [← hshape]
    exact parseDigs_natStr n.natAbs rest hrest
  have hdm : ¬d = '-' := by
    intro h
    rw [h] at hd
    exact absurd hd (by decide)
  by_cases hn : n < 0
  · have henc : encInt n ++ rest = '-' :: (d :: (ds ++ rest)) := by
      rw [encInt, if_pos hn, List.cons_append, hshape]
    rw [henc]
    simp only [parseInt, hd, hdig]
    simp only [reduceIte]
    have hcast : -((n.natAbs : Nat) : Int) = n := by omega
    rw [hcast]
  · have henc : encInt n ++ rest = d :: (ds ++ rest) := by
      rw [encInt, if_neg hn, hshape]
    rw [henc]
    simp only [parseInt, hd, hdig, if_neg hdm]
    simp only [reduceIte]
    have hcast : ((n.natAbs : Nat) : Int) = n := by omega
    rw [hcast]

theorem noDigitHead_litBalance (l : List Char) : noDigitHead (litBalance ++ l) = true := rfl

theorem noDigitHead_litClose (l : List Char) : noDigitHead (litClose ++ l) = true := rfl

theorem parseRow_enc (r : NRow) (rest : List Char) :
    parseRow (encRow r ++ rest) = some (r, rest) := by
  have h : encRow r ++ rest
      = litObjDate ++ (encStr r.date ++ (litName ++ (encStr r.name ++ (litDescription
        ++ (encStr r.description ++ (litType ++ (encStr r.type ++ (litAmount
        ++ (encInt r.amount ++ (litBalance ++ (encInt r.balance
        ++ (litClose ++ rest)))))))))))) := by
    simp [encRow, List.append_assoc]
  rw [h]
  simp only [parseRow, dropLit_append, parseJString_enc, Option.bind_eq_bind,
    Option.some_bind, parseInt_enc _ _ (noDigitHead_litBalance _),
    parseInt_enc _ _ (noDigitHead_litClose _)]
  rfl

theorem encMore_cons (r : NRow) (rs : List NRow) :
    encMore (r :: rs) = ',' :: (encRow r ++ encMore rs) := by
  simp [encMore, List.append_assoc]

theorem encMore_length (rs : List NRow) : rs.length + 1 ≤ (encMore rs).length := by
  induction rs with
  | nil => simp [encMore]
  | cons r rs ih =>
    rw [encMore_cons]
    simp only [List.length_cons, List.length_append]
    omega

theorem parseRowsMore_enc (rs : List NRow) :
    ∀ (fuel : Nat) (rest : List Char), rs.length + 1 ≤ fuel →
      parseRowsMore fuel (encMore rs ++ rest) = some (rs, rest) := by
  induction rs with
  | nil =>
    intro fuel rest hfuel
    cases fuel with
    | zero => omega
    | succ f =>
      have h : encMore ([] : List NRow) ++ rest = ']' :: rest := rfl
      rw [h]
      simp [parseRowsMore]
  | cons r rs ih =>
    intro fuel rest hfuel
    cases fuel with
    | zero => omega
    | succ f =>
      have h : encMore (r :: rs) ++ rest = ',' :: (encRow r ++ (encMore rs ++ rest)) := by
        rw [encMore_cons]
        simp [List.append_assoc]
      rw [h]
      simp only [parseRowsMore]
      have hne : ¬(',' : Char) = ']' := by decide
      rw [if_neg hne, if_true, parseRow_enc r (encMore rs ++ rest)]
      simp only [ih f rest (by simpa using hfuel)]

theorem parseRowsTop_enc (rs : List NRow) (rest : List Char) :
    parseRowsTop (encRows rs ++ rest) = some (rs, rest) := by
  cases rs with
  | nil =>
    have h : encRows ([] : List NRow) ++ rest = '[' :: (']' :: rest) := rfl
    rw [h]
    simp [parseRowsTop]
  | cons r rs =>
    have h : encRows (r :: rs) ++ rest = '[' :: (encRow r ++ (encMore rs ++ rest)) := by
      simp [encRows, List.append_assoc]
    rw [h]
    simp only [parseRowsTop]
    obtain ⟨t, ht⟩ : ∃ t, encRow r ++ (encMore rs ++ rest) = '{' :: t := by
      refine ⟨(litObjDate.tail ++ (encStr r.date ++ (litName ++ (encStr r.name
        ++ (litDescription ++ (encStr r.description ++ (litType ++ (encStr r.type
        ++ (litAmount ++ (encInt r.amount ++ (litBalance ++ (encInt r.balance
        ++ (litClose ++ (encMore rs ++ rest)))))))))))))), ?_⟩
      simp [encRow, litObjDate, List.append_assoc]
    rw [ht]
    have hne : ¬('{' : Char) = ']' := by decide
    rw [if_true]
    simp only []
    rw [if_neg hne, ← ht, parseRow_enc r (encMore rs ++ rest)]
    have hfuel : rs.length + 1 ≤ (encMore rs ++ rest).length + 1 := by
      have := encMore_length rs
      simp only [List.length_append]
      omega
    simp only [parseRowsMore_enc rs ((encMore rs ++ rest).length + 1) rest hfuel]

theorem jsonParse_stringify (rs : List NRow) :
    jsonParseRows (jsonStringifyRows rs) = some rs := by
  unfold jsonParseRows jsonStringifyRows
  have h : (String.mk (encRows rs)).data = encRows rs ++ [] := by simp
  rw [h, parseRowsTop_enc rs []]

theorem stringify_ne_empty (rs : List NRow) : jsonStringifyRows rs ≠ "" := by
  intro h
  have hd : encRows rs = [] := congrArg String.data h
  cases rs with
  | nil => cases hd
  | cons r rest => cases hd

/-- C10: reading the local store right after persisting a row list returns
that list (the stringify/parse round-trip), independent of the previous
store contents; an absent key and an unparsable stored value both load as
the empty list (`loadLocal` is a total function — it never throws). -/
theorem C10_local_store_roundtrip (rows : List NRow) (storage : String → Option String)
    (s : String) (h1 : s ≠ "") (h2 : jsonParseRows s = none) :
    loadLocal (persistLocal rows storage) = rows
    ∧ loadLocal (fun _ => none) = []
    ∧ loadLocal (fun k => if k = LS_KEY then some s else none) = [] := by
  refine ⟨?_, rfl, ?_⟩
  · simp [loadLocal, persistLocal, stringify_ne_empty rows, jsonParse_stringify]
  · simp [loadLocal, h1, h2]

/-- C10 witness: round-trip of a one-row list, and the corrupt value `"x"`. -/
theorem C10_local_store_roundtrip_witness :
    loadLocal (persistLocal [⟨"2025-01-01", "a", "b", "IN", 5, 5⟩] (fun _ => none))
        = [⟨"2025-01-01", "a", "b", "IN", 5, 5⟩]
    ∧ loadLocal (fun _ => none) = []
    ∧ loadLocal (fun k => if k = LS_KEY then some "x" else none) = [] :=
  C10_local_store_roundtrip [⟨"2025-01-01", "a", "b", "IN", 5, 5⟩] (fun _ => none) "x"
    (by decide) (by decide)

/-- C6: when an endpoint is configured and the remote fetch fails (transport
error or JSON parse failure), `fetchData` does not propagate the error: it
reads the local store, normalizes its contents and produces the state from
them — exactly the local-mode load. -/
theorem C6_read_fallback (storage : String → Option String) :
    fetchData true .fail storage = (normalize ((loadLocal storage).map rawProj)).reverse
    ∧ fetchData true .fail storage = fetchData false .fail storage :=
  ⟨rfl, rfl⟩

end FinApp
